import Mathlib

/-!
Shallow embedding of `src/app/(public)/main-category/[slug]/page.tsx`:
the category resolver of the server component and the product view
pipeline (filter / sort / paginate) of the `ShopAllProducts` client
component, together with proofs of the specification's claims.

Conventions of the embedding:
* JS numbers that the code produces via `Number(...)` are modelled as `Int`
  (prices, stock counts, timestamps); `Date.now()` and parsed dates are
  explicit `Int` timestamps.
* Optional / possibly-`undefined` fields are `Option`; a possibly absent
  array field is a plain `List` (an absent array and `[]` behave alike in
  every expression of this file's sources: `xs?.find ?? xs?.[0]`,
  `xs?.map || []`, `xs || []`).
* `Number(x || d)` on numbers is `jsNumOr`: `undefined` and `0` are the
  falsy cases.
-/

namespace DressExpress

/-- A JS whitespace character as matched by `\s` / `trim` (ASCII part). -/
def isJsWhitespace (c : Char) : Bool :=
  c == ' ' || c == '\t' || c == '\n' || c == '\r' || c == '\x0b' || c == '\x0c'

/-- A `\w` character: `[A-Za-z0-9_]`. -/
def isWordChar (c : Char) : Bool :=
  c.isAlphanum || c == '_'

/-- Replace every maximal run of characters satisfying `p` by the single
character `r`; the flag records whether we are inside a run.  This is
`String.prototype.replace` with a global `/p+/` pattern. -/
def collapseRuns (p : Char → Bool) (r : Char) : List Char → Bool → List Char
  | [], _ => []
  | c :: cs, inRun =>
    if p c then
      if inRun then collapseRuns p r cs true
      else r :: collapseRuns p r cs true
    else c :: collapseRuns p r cs false

/-- `trim`: drop whitespace from both ends (JS `String.prototype.trim`). -/
def trimChars (l : List Char) : List Char :=
  ((l.dropWhile isJsWhitespace).reverse.dropWhile isJsWhitespace).reverse

/-- JS `String.prototype.trim` on `String`. -/
def trimStr (s : String) : String :=
  String.mk (trimChars s.data)

/-- JS `String.prototype.toLowerCase` (ASCII range, as used by the page). -/
def jsToLower (s : String) : String :=
  String.mk (s.data.map Char.toLower)

/-- `createSlug` (page.tsx lines 11-19): lowercase, collapse whitespace
runs to `-`, strip characters outside `\w` and `-`, collapse runs of two
or more hyphens, trim leading and trailing hyphens. -/
def createSlug (name : String) : String :=
  let s1 := name.data.map Char.toLower
  let s2 := collapseRuns isJsWhitespace '-' s1 false
  let s3 := s2.filter (fun c => isWordChar c || c == '-')
  let s4 := collapseRuns (fun c => c == '-') '-' s3 false
  let s5 := s4.dropWhile (fun c => c == '-')
  let s6 := (s5.reverse.dropWhile (fun c => c == '-')).reverse
  String.mk s6

/-- A business category (`@/types/business`): id, display name and
child categories. -/
inductive Category where
  | mk (_id : String) (name : String) (children : List Category)

def Category._id : Category → String
  | .mk i _ _ => i

def Category.name : Category → String
  | .mk _ n _ => n

def Category.children : Category → List Category
  | .mk _ _ ch => ch

/-- The slug lookup of `MainCategoryPageServer` (page.tsx lines 60-69):
`business.categories.find(cat => createSlug(cat.name) === params.slug.toLowerCase())`. -/
def findMainCategory (slug : String) (cats : List Category) : Option Category :=
  cats.find? (fun cat => createSlug cat.name == jsToLower slug)

/-! ### Product data model -/

/-- A product variant (`@/types/product`), with the fields the page reads. -/
structure Variant where
  selling_price : Option Int
  offer_price : Option Int
  discount_start_date : Option Int
  discount_end_date : Option Int
  variants_stock : Int
  variants_values : List String
  condition : Option String
deriving DecidableEq

/-- A category tag of a product's `category_group`. -/
structure CatTag where
  _id : String
  name : Option String
deriving DecidableEq

/-- A product, with the fields the page reads. -/
structure Product where
  _id : Option String
  name : Option String
  category_group : List CatTag
  variantsId : List Variant
deriving DecidableEq

/-- `Number(x || d)` for a numeric `x` that may be `undefined`:
`undefined` and `0` are falsy and give the default. -/
def jsNumOr (x : Option Int) (dflt : Int) : Int :=
  match x with
  | none => dflt
  | some v => if v = 0 then dflt else v

/-- `p.variantsId?.find(x => Number(x.variants_stock) > 0) ?? p.variantsId?.[0]`:
first variant with positive stock, else the first variant, else none. -/
def pickVariant (product : Product) : Option Variant :=
  (product.variantsId.find? (fun x => decide (0 < x.variants_stock))).orElse
    (fun _ => product.variantsId.head?)

/-- The price of one variant at instant `now`:
`sell = Number(v.selling_price || 0)`, `offer = Number(v.offer_price || sell)`,
`start`/`end` are the parsed discount dates (0 when absent), and the offer
applies iff `offer < sell && now >= start && now <= end`. -/
def variantPrice (now : Int) (v : Variant) : Int :=
  let sell := jsNumOr v.selling_price 0
  let offer := jsNumOr v.offer_price sell
  let start := match v.discount_start_date with | some t => t | none => 0
  let stop := match v.discount_end_date with | some t => t | none => 0
  if offer < sell ∧ start ≤ now ∧ now ≤ stop then offer else sell

/-- The effective-price block as inlined in the filter predicate
(page.tsx lines 291-307): 0 when no variant exists. -/
def effectivePriceFilter (now : Int) (product : Product) : Int :=
  match pickVariant product with
  | none => 0
  | some v => variantPrice now v

/-- The effective-price block as duplicated verbatim in the sort
comparator, `getPrice` (page.tsx lines 336-352). -/
def getPrice (now : Int) (product : Product) : Int :=
  match pickVariant product with
  | none => 0
  | some v => variantPrice now v

/-- The effective-price block as duplicated verbatim in the min/max
price-bounds computation (page.tsx lines 226-242). -/
def boundsPrice (now : Int) (product : Product) : Int :=
  match pickVariant product with
  | none => 0
  | some v => variantPrice now v

/-! ### Search -/

/-- `startsWithL hay q`: `q` is an initial segment of `hay`. -/
def startsWithL : List Char → List Char → Bool
  | _, [] => true
  | [], _ :: _ => false
  | h :: hs, q :: qs => h == q && startsWithL hs qs

/-- `containsL hay q` models JS `hay.includes(q)`. -/
def containsL : List Char → List Char → Bool
  | [], q => startsWithL [] q
  | c :: hs, q => startsWithL (c :: hs) q || containsL hs q

/-- The haystack of the search clause (page.tsx lines 312-318):
`[name?.toLowerCase() || "", ...category_group?.map(c => c.name?.toLowerCase()) || [],
...variantsId?.map(v => v.condition?.toLowerCase()) || []].join(" ")`
(`join` renders an `undefined` entry as the empty string). -/
def searchHaystack (product : Product) : String :=
  String.intercalate (String.mk [' '])
    (((product.name.map jsToLower).getD (String.mk [])) ::
      (product.category_group.map (fun c => (c.name.map jsToLower).getD (String.mk [])) ++
       product.variantsId.map (fun v => (v.condition.map jsToLower).getD (String.mk []))))

/-! ### View parameters and the pipeline -/

inductive SortKey where
  | name
  | priceLow
  | priceHigh
  | newest
deriving DecidableEq

/-- The `ShopAllProducts` state the pipeline reads: `sortBy`,
`selectedCats`, `selectedSizes`, `searchQuery`, `priceRange`,
`currentPage`. -/
structure ViewParams where
  sortBy : SortKey
  selectedCats : List String
  selectedSizes : List String
  searchQuery : String
  priceRange : Int × Int
  currentPage : Nat
deriving DecidableEq

/-- `itemsPerPage = 20` (page.tsx line 153). -/
def itemsPerPage : Nat := 20

/-- The filter predicate of `filteredAndSorted` (page.tsx lines 290-334),
with its early returns spelled as a cascade. -/
def passesFilter (now : Int) (pr : ViewParams) (product : Product) : Bool :=
  let price := effectivePriceFilter now product
  if price < pr.priceRange.1 ∨ pr.priceRange.2 < price then false
  else if trimStr pr.searchQuery ≠ String.mk [] ∧
      containsL (searchHaystack product).data (jsToLower pr.searchQuery).data = false then
    false
  else if pr.selectedCats ≠ [] ∧
      (product.category_group.map (fun c => c._id)).any
        (fun i => pr.selectedCats.contains i) = false then
    false
  else if pr.selectedSizes ≠ [] ∧
      (product.variantsId.flatMap (fun v => v.variants_values)).any
        (fun s => pr.selectedSizes.contains s) = false then
    false
  else true

/-- The sort comparator (page.tsx lines 335-364) as the "may stay before"
relation of a stable sort: `sortLe now k a b` holds iff the JS comparator
returns a value `≤ 0` on `(a, b)`.  `localeCompare` is modelled as
code-point string order. -/
def sortLe (now : Int) (key : SortKey) (a b : Product) : Bool :=
  match key with
  | SortKey.name => decide ((a.name.getD (String.mk [])) ≤ (b.name.getD (String.mk [])))
  | SortKey.priceLow => decide (getPrice now a ≤ getPrice now b)
  | SortKey.priceHigh => decide (getPrice now b ≤ getPrice now a)
  | SortKey.newest => decide ((b._id.getD (String.mk [])) ≤ (a._id.getD (String.mk [])))

/-- The pipeline result `{ filteredAndSorted, paginatedProducts, totalPages }`. -/
structure PipelineOut where
  filteredAndSorted : List Product
  paginatedProducts : List Product
  totalPages : Nat
deriving DecidableEq

/-- The `useMemo` body (page.tsx lines 288-377): filter, stable sort,
`totalPages = Math.ceil(filtered.length / itemsPerPage)`, and
`filtered.slice((currentPage-1)*itemsPerPage, currentPage*itemsPerPage)`. -/
def productPipeline (now : Int) (pr : ViewParams) (initialProducts : List Product) :
    PipelineOut :=
  let filtered := (initialProducts.filter (passesFilter now pr)).mergeSort
    (sortLe now pr.sortBy)
  let totalPages := (filtered.length + (itemsPerPage - 1)) / itemsPerPage
  let startIndex := (pr.currentPage - 1) * itemsPerPage
  let paginated := (filtered.drop startIndex).take itemsPerPage
  { filteredAndSorted := filtered
    paginatedProducts := paginated
    totalPages := totalPages }

/-- The same evaluation with the array state made explicit: `.filter`
allocates a fresh array and `.sort` mutates only that fresh array, so the
post-state of the `initialProducts` array — the first component — is its
initial contents. -/
def pipelineWithArrayState (now : Int) (pr : ViewParams) (initialProducts : List Product) :
    List Product × PipelineOut :=
  (initialProducts, productPipeline now pr initialProducts)

/-! ### Parameter mutators (page.tsx lines 156-219)

Each handler accepts either a direct value or a functional update, and
resets `currentPage` to 1 in both branches. -/

/-- The argument shape `T | React.SetStateAction<T>` of the handlers. -/
inductive Updater (α : Type) where
  | value (v : α)
  | func (f : α → α)

def handleSortChange (u : Updater SortKey) (s : ViewParams) : ViewParams :=
  match u with
  | Updater.value v => { s with sortBy := v, currentPage := 1 }
  | Updater.func f => { s with sortBy := f s.sortBy, currentPage := 1 }

def handleSearchChange (u : Updater String) (s : ViewParams) : ViewParams :=
  match u with
  | Updater.value v => { s with searchQuery := v, currentPage := 1 }
  | Updater.func f => { s with searchQuery := f s.searchQuery, currentPage := 1 }

def handleCategoryChange (u : Updater (List String)) (s : ViewParams) : ViewParams :=
  match u with
  | Updater.value v => { s with selectedCats := v, currentPage := 1 }
  | Updater.func f => { s with selectedCats := f s.selectedCats, currentPage := 1 }

def handleSizeChange (u : Updater (List String)) (s : ViewParams) : ViewParams :=
  match u with
  | Updater.value v => { s with selectedSizes := v, currentPage := 1 }
  | Updater.func f => { s with selectedSizes := f s.selectedSizes, currentPage := 1 }

def handlePriceRangeChange (u : Updater (Int × Int)) (s : ViewParams) : ViewParams :=
  match u with
  | Updater.value v => { s with priceRange := v, currentPage := 1 }
  | Updater.func f => { s with priceRange := f s.priceRange, currentPage := 1 }

/-! ### URL query-parameter seeding (page.tsx lines 30-31) -/

/-- Value of a decimal digit. -/
def decDigit (c : Char) : Option Nat :=
  if '0' ≤ c ∧ c ≤ '9' then some (c.toNat - '0'.toNat) else none

/-- Value of a hexadecimal digit. -/
def hexDigit (c : Char) : Option Nat :=
  if '0' ≤ c ∧ c ≤ '9' then some (c.toNat - '0'.toNat)
  else if 'a' ≤ c ∧ c ≤ 'f' then some (c.toNat - 'a'.toNat + 10)
  else if 'A' ≤ c ∧ c ≤ 'F' then some (c.toNat - 'A'.toNat + 10)
  else none

/-- Accumulate the maximal leading run of digits. -/
def parseDigitsAux (base : Nat) (val : Char → Option Nat) : List Char → Nat → Nat
  | [], acc => acc
  | c :: cs, acc =>
    match val c with
    | some d => parseDigitsAux base val cs (acc * base + d)
    | none => acc

/-- JS `parseInt(s)` with no radix argument: skip leading whitespace,
optional sign, `0x`/`0X` switches to base 16, then the maximal run of
digits; `none` models `NaN` (no digit at all). -/
def jsParseInt (s : String) : Option Int :=
  let cs0 := s.data.dropWhile isJsWhitespace
  let signAndRest : Int × List Char :=
    match cs0 with
    | '-' :: rest => (-1, rest)
    | '+' :: rest => (1, rest)
    | _ => (1, cs0)
  let baseAndDigits : Nat × (Char → Option Nat) × List Char :=
    match signAndRest.2 with
    | '0' :: 'x' :: rest => (16, hexDigit, rest)
    | '0' :: 'X' :: rest => (16, hexDigit, rest)
    | _ => (10, decDigit, signAndRest.2)
  match baseAndDigits.2.2 with
  | [] => none
  | c :: _ =>
    match baseAndDigits.2.1 c with
    | none => none
    | some _ =>
      some (signAndRest.1 *
        Int.ofNat (parseDigitsAux baseAndDigits.1 baseAndDigits.2.1 baseAndDigits.2.2 0))

/-- `const page = parseInt(searchParams?.page as string) || 1` — an absent
parameter coerces to the string "undefined", which parses to `NaN`. -/
def seedPage (p : Option String) : Int :=
  jsNumOr (p.bind jsParseInt) 1

/-- `const limit = parseInt(searchParams?.limit as string) || 20`. -/
def seedLimit (l : Option String) : Int :=
  jsNumOr (l.bind jsParseInt) 20

/-! ### Descendant-set expansion (page.tsx lines 115-123) -/

mutual

/-- `getAllDescendantIds`: the node's own id, then each child's ids in
order (`ids = ids.concat(getAllDescendantIds(child))`). -/
def getAllDescendantIds : Category → List String
  | Category.mk i _ children => i :: descendantIdsOfList children

/-- The `for (const child of cat.children)` loop. -/
def descendantIdsOfList : List Category → List String
  | [] => []
  | c :: cs => getAllDescendantIds c ++ descendantIdsOfList cs

end

/-- `ReachesId c x`: `x` is `c`'s own id or an id reachable via
`children` edges. -/
inductive ReachesId : Category → String → Prop where
  | self (c : Category) : ReachesId c c._id
  | child {c child : Category} {x : String} :
      child ∈ c.children → ReachesId child x → ReachesId c x

/-! ## Helper lemmas -/

theorem pickVariant_singleton (pid pname : Option String) (tags : List CatTag)
    (v : Variant) : pickVariant (Product.mk pid pname tags [v]) = some v := by
  simp only [pickVariant, List.find?]
  cases hd : decide (0 < v.variants_stock) <;> simp [Option.orElse]

theorem effectivePriceFilter_singleton (pid pname : Option String)
    (tags : List CatTag) (t : Int) (v : Variant) :
    effectivePriceFilter t (Product.mk pid pname tags [v]) = variantPrice t v := by
  rw [effectivePriceFilter, pickVariant_singleton]

/-! ## Claims -/

/-- C5: every filter-affecting mutator (search, category selection, size
selection, price range) and the sort mutator reset the current page to 1,
whether invoked with a direct value or a functional update, from any
prior state. -/
theorem mutators_reset_page_to_one (s : ViewParams)
    (u1 : Updater SortKey) (u2 : Updater String)
    (u3 u4 : Updater (List String)) (u5 : Updater (Int × Int)) :
    (handleSortChange u1 s).currentPage = 1 ∧
    (handleSearchChange u2 s).currentPage = 1 ∧
    (handleCategoryChange u3 s).currentPage = 1 ∧
    (handleSizeChange u4 s).currentPage = 1 ∧
    (handlePriceRangeChange u5 s).currentPage = 1 := by
  refine ⟨?_, ?_, ?_, ?_, ?_⟩
  · cases u1 <;> rfl
  · cases u2 <;> rfl
  · cases u3 <;> rfl
  · cases u4 <;> rfl
  · cases u5 <;> rfl

/-- C7: a product with no variant data has effective price 0 at each of
the three call sites that evaluate the rule (filter predicate, sort
comparator, min/max range bounds), rather than failing. -/
theorem price_zero_on_missing_variants (now : Int) (p : Product)
    (h : p.variantsId = []) :
    effectivePriceFilter now p = 0 ∧ getPrice now p = 0 ∧ boundsPrice now p = 0 := by
  have hp : pickVariant p = none := by simp [pickVariant, h]
  simp [effectivePriceFilter, getPrice, boundsPrice, hp]

/-- Witness for C7 at the concrete variantless product. -/
theorem price_zero_on_missing_variants_witness :
    effectivePriceFilter 0 (Product.mk none none [] []) = 0 ∧
    getPrice 0 (Product.mk none none [] []) = 0 ∧
    boundsPrice 0 (Product.mk none none [] []) = 0 :=
  price_zero_on_missing_variants 0 (Product.mk none none [] []) rfl

/-- C4: for a variant with selling price 100, offer price 80 and offer
window `[t0, t1]`, the effective price is 80 exactly when `now` lies in
the window and 100 outside it; when the offer price is not strictly
below the selling price the selling price is used regardless of the
window; and the variant evaluated is the first one with positive stock,
falling back to the first variant when none has stock. -/
theorem effectivePrice_offer_rule (t0 t1 t stock : Int) (vals : List String)
    (cond : Option String) (pid pname : Option String) :
    (t0 ≤ t ∧ t ≤ t1 →
      effectivePriceFilter t (Product.mk pid pname []
        [Variant.mk (some 100) (some 80) (some t0) (some t1) stock vals cond]) = 80) ∧
    ((t < t0 ∨ t1 < t) →
      effectivePriceFilter t (Product.mk pid pname []
        [Variant.mk (some 100) (some 80) (some t0) (some t1) stock vals cond]) = 100) ∧
    (∀ sell offer : Int, sell ≤ offer →
      effectivePriceFilter t (Product.mk pid pname []
        [Variant.mk (some sell) (some offer) (some t0) (some t1) stock vals cond]) = sell) ∧
    (∀ v1 v2 : Variant, v1.variants_stock ≤ 0 → 0 < v2.variants_stock →
      effectivePriceFilter t (Product.mk pid pname [] [v1, v2]) = variantPrice t v2) ∧
    (∀ v1 : Variant, effectivePriceFilter t (Product.mk pid pname [] [v1]) =
      variantPrice t v1) := by
  refine ⟨?_, ?_, ?_, ?_, ?_⟩
  · intro h
    rw [effectivePriceFilter_singleton]
    simp only [variantPrice, jsNumOr]
    split_ifs <;> omega
  · intro h
    rw [effectivePriceFilter_singleton]
    simp only [variantPrice, jsNumOr]
    split_ifs <;> omega
  · intro sell offer h
    rw [effectivePriceFilter_singleton]
    simp only [variantPrice, jsNumOr]
    split_ifs <;> omega
  · intro v1 v2 h1 h2
    have d1 : decide (0 < v1.variants_stock) = false := by
      simp only [decide_eq_false_iff_not]; omega
    have d2 : decide (0 < v2.variants_stock) = true := by
      simpa using h2
    simp [effectivePriceFilter, pickVariant, List.find?, d1, d2]
  · intro v1
    exact effectivePriceFilter_singleton pid pname [] t v1

/-- Witness for C4: at `t0 = 0`, `t1 = 10`, `now = 5` the effective price
is the offer price 80. -/
theorem effectivePrice_offer_rule_witness :
    effectivePriceFilter 5 (Product.mk none none []
      [Variant.mk (some 100) (some 80) (some 0) (some 10) 1 [] none]) = 80 :=
  (effectivePrice_offer_rule 0 10 5 1 [] none none none).1 (by decide)

/-- C1 fails as stated: for the requested slug "a b" and a single
category named "A B", `createSlug` sends both the name and the slug to
"a-b", so the claim demands a match; but the resolver compares the
slugified name against the merely lowercased slug "a b" and returns no
match. -/
theorem resolver_counterexample :
    createSlug (Category.mk "c1" "A B" []).name = createSlug "a b" ∧
    findMainCategory "a b" [Category.mk "c1" "A B" []] = none :=
  ⟨rfl, rfl⟩

/-- C1 (amended): the resolver returns the first category in list order
whose slugified name equals the **lowercased** requested slug (not the
slugified slug), and no match exactly when no category's slugified name
equals the lowercased slug; the first match wins. -/
theorem findMainCategory_first_match (slug : String) (cats : List Category) :
    (∀ c, findMainCategory slug cats = some c →
      createSlug c.name = jsToLower slug ∧
      ∃ pre post, cats = pre ++ c :: post ∧
        ∀ c' ∈ pre, createSlug c'.name ≠ jsToLower slug) ∧
    (findMainCategory slug cats = none →
      ∀ c ∈ cats, createSlug c.name ≠ jsToLower slug) := by
  constructor
  · intro c h
    rw [findMainCategory, List.find?_eq_some] at h
    obtain ⟨hp, pre, post, heq, hpre⟩ := h
    refine ⟨by simpa using hp, pre, post, heq, ?_⟩
    intro c' hc'
    simpa using hpre c' hc'
  · intro h c hc
    rw [findMainCategory, List.find?_eq_none] at h
    simpa using h c hc

/-- Witness for C1's amended theorem: at slug "a-b" the resolver finds
the category named "A  B", whose slugified name is the lowercased slug. -/
theorem findMainCategory_first_match_witness :
    createSlug (Category.mk "c1" "A  B" []).name = jsToLower "a-b" :=
  ((findMainCategory_first_match "a-b" [Category.mk "c1" "A  B" []]).1
    (Category.mk "c1" "A  B" []) rfl).1

/-- C6 fails as stated: the query parameter `page = "-5"` parses to −5,
which is truthy and is passed through, so the seeded page is not at
least 1. -/
theorem seedPage_counterexample :
    seedPage (some "-5") = -5 ∧ ¬ (1 ≤ seedPage (some "-5")) := by
  constructor
  · decide
  · decide

/-- C6 (amended): a missing or unparsable `page` seeds 1 and a missing
or unparsable `limit` seeds 20, silently; a `page` parsing to 0 also
seeds 1; the seeded page is at least 1 whenever the parsed value is
nonnegative; but a `page` parsing to a negative value is passed through
unchanged. -/
theorem seed_defaults (ps ls : Option String) :
    (ps.bind jsParseInt = none → seedPage ps = 1) ∧
    (ls.bind jsParseInt = none → seedLimit ls = 20) ∧
    (ps.bind jsParseInt = some 0 → seedPage ps = 1) ∧
    (∀ v : Int, ps.bind jsParseInt = some v → 0 ≤ v → 1 ≤ seedPage ps) ∧
    (∀ v : Int, ps.bind jsParseInt = some v → v < 0 → seedPage ps = v) := by
  refine ⟨?_, ?_, ?_, ?_, ?_⟩
  · intro h; rw [seedPage, h]; rfl
  · intro h; rw [seedLimit, h]; rfl
  · intro h; rw [seedPage, h]; rfl
  · intro v h hv
    rw [seedPage, h, jsNumOr]
    split_ifs <;> omega
  · intro v h hv
    rw [seedPage, h, jsNumOr]
    split_ifs <;> omega

/-- Witness for C6's amended theorem: `page = "abc"` seeds 1 and a
missing `limit` seeds 20. -/
theorem seed_defaults_witness :
    seedPage (some "abc") = 1 ∧ seedLimit none = 20 :=
  ⟨(seed_defaults (some "abc") none).1 (by decide),
   (seed_defaults (some "abc") none).2.1 rfl⟩

/-! ### C9: descendant expansion -/

mutual

theorem reachesId_of_mem : ∀ (c : Category) (x : String),
    x ∈ getAllDescendantIds c → ReachesId c x
  | Category.mk i n children, x, h => by
    rw [getAllDescendantIds] at h
    rcases List.mem_cons.mp h with h | h
    · subst h
      exact ReachesId.self (Category.mk x n children)
    · obtain ⟨child, hchild, hr⟩ := exists_reaches_of_mem_list children x h
      exact ReachesId.child hchild hr

theorem exists_reaches_of_mem_list : ∀ (cs : List Category) (x : String),
    x ∈ descendantIdsOfList cs → ∃ c ∈ cs, ReachesId c x
  | [], x, h => by rw [descendantIdsOfList] at h; cases h
  | c :: cs, x, h => by
    rw [descendantIdsOfList] at h
    rcases List.mem_append.mp h with h | h
    · exact ⟨c, List.mem_cons_self c cs, reachesId_of_mem c x h⟩
    · obtain ⟨c', hc', hr⟩ := exists_reaches_of_mem_list cs x h
      exact ⟨c', List.mem_cons_of_mem c hc', hr⟩

end

theorem mem_descendantIdsOfList_of_mem :
    ∀ (cs : List Category) (c : Category), c ∈ cs →
      ∀ x, x ∈ getAllDescendantIds c → x ∈ descendantIdsOfList cs
  | [], _, h, _, _ => absurd h (List.not_mem_nil _)
  | c' :: cs, c, h, x, hx => by
    rw [descendantIdsOfList]
    rcases List.mem_cons.mp h with h | h
    · subst h
      exact List.mem_append_left _ hx
    · exact List.mem_append_right _ (mem_descendantIdsOfList_of_mem cs c h x hx)

theorem mem_of_reachesId {c : Category} {x : String} (h : ReachesId c x) :
    x ∈ getAllDescendantIds c := by
  induction h with
  | self c =>
    cases c with
    | mk i n ch =>
      rw [getAllDescendantIds]
      exact List.mem_cons_self _ _
  | child hmem hr ih =>
    rename_i c child x
    cases c with
    | mk i n ch =>
      rw [getAllDescendantIds]
      exact List.mem_cons_of_mem _
        (mem_descendantIdsOfList_of_mem ch child hmem x ih)

/-- C9: descendant-set expansion returns the node's own id together with
exactly the ids reachable via `children` edges, and on the concrete tree
with two children carrying one grandchild each it returns the 5 ids in
depth-first pre-order. -/
theorem getAllDescendantIds_spec :
    (∀ (c : Category) (x : String), x ∈ getAllDescendantIds c ↔ ReachesId c x) ∧
    getAllDescendantIds (Category.mk "r" "root"
      [Category.mk "c1" "left" [Category.mk "g1" "leftleft" []],
       Category.mk "c2" "right" [Category.mk "g2" "rightright" []]]) =
      ["r", "c1", "g1", "c2", "g2"] ∧
    (getAllDescendantIds (Category.mk "r" "root"
      [Category.mk "c1" "left" [Category.mk "g1" "leftleft" []],
       Category.mk "c2" "right" [Category.mk "g2" "rightright" []]])).length = 5 :=
  ⟨fun c x => ⟨reachesId_of_mem c x, mem_of_reachesId⟩, rfl, rfl⟩

/-- Witness for C9: via the characterization, the grandchild id "g2" is
reachable from the example root. -/
theorem getAllDescendantIds_spec_witness :
    ReachesId (Category.mk "r" "root"
      [Category.mk "c1" "left" [Category.mk "g1" "leftleft" []],
       Category.mk "c2" "right" [Category.mk "g2" "rightright" []]]) "g2" :=
  (getAllDescendantIds_spec.1 _ _).mp (by simp [getAllDescendantIds, descendantIdsOfList])

/-! ### C3: pagination -/

theorem ceil_div_twenty (n : ℕ) : ⌈(n : ℚ) / 20⌉ = (((n + 19) / 20 : ℕ) : ℤ) := by
  set m : ℕ := (n + 19) / 20 with hm
  have h1 : n ≤ 20 * m := by omega
  have h2 : 20 * m < n + 20 := by omega
  have h1q : (n : ℚ) ≤ 20 * (m : ℚ) := by exact_mod_cast h1
  have h2q : 20 * (m : ℚ) < (n : ℚ) + 20 := by exact_mod_cast h2
  rw [Int.ceil_eq_iff]
  constructor
  · rw [lt_div_iff₀ (by norm_num : (0 : ℚ) < 20)]
    push_cast
    linarith
  · rw [div_le_iff₀ (by norm_num : (0 : ℚ) < 20)]
    push_cast
    linarith

/-- C3: for page numbers ≥ 1 and page size 20, the paginated slice has
length `min 20 (max 0 (filteredLength − (page−1)·20))`, `totalPages` is
the ceiling of `filteredLength / 20`, and a page beyond `totalPages`
yields the empty slice. -/
theorem pagination_spec (now : Int) (pr : ViewParams) (products : List Product)
    (h : 1 ≤ pr.currentPage) :
    (((productPipeline now pr products).paginatedProducts.length : Int) =
      min 20 (max 0 (((productPipeline now pr products).filteredAndSorted.length : Int) -
        ((pr.currentPage : Int) - 1) * 20))) ∧
    (((productPipeline now pr products).totalPages : Int) =
      ⌈(((productPipeline now pr products).filteredAndSorted.length : ℚ)) / 20⌉) ∧
    ((productPipeline now pr products).totalPages < pr.currentPage →
      (productPipeline now pr products).paginatedProducts = []) := by
  have hout : productPipeline now pr products =
      { filteredAndSorted :=
          (products.filter (passesFilter now pr)).mergeSort (sortLe now pr.sortBy)
        paginatedProducts :=
          (((products.filter (passesFilter now pr)).mergeSort
            (sortLe now pr.sortBy)).drop ((pr.currentPage - 1) * 20)).take 20
        totalPages :=
          (((products.filter (passesFilter now pr)).mergeSort
            (sortLe now pr.sortBy)).length + 19) / 20 } := rfl
  rw [hout]
  set F := (products.filter (passesFilter now pr)).mergeSort (sortLe now pr.sortBy) with hF
  refine ⟨?_, ?_, ?_⟩
  · simp only [List.length_take, List.length_drop]
    omega
  · simp only [ceil_div_twenty]
  · intro hp
    simp only at hp
    have hlen : F.length ≤ (pr.currentPage - 1) * 20 := by omega
    simp only [List.drop_eq_nil_of_le hlen, List.take_nil]

/-- Witness for C3: on an empty product list at page 2, `totalPages = 0 < 2`
and the slice is empty. -/
theorem pagination_spec_witness :
    (productPipeline 0 (ViewParams.mk SortKey.newest [] [] "" (0, 0) 2)
      []).paginatedProducts = [] :=
  (pagination_spec 0 (ViewParams.mk SortKey.newest [] [] "" (0, 0) 2) []
    (by decide)).2.2
    (by simp [productPipeline, List.mergeSort_nil, itemsPerPage])

/-! ### C10: purity / frame -/

/-- C10: with the array state explicit, the pipeline leaves the input
product list unchanged; its filtered output is a permutation of the
fresh filter result, and that filter result is a sublist of the input —
sorting acts only on the fresh copy. -/
theorem pipeline_pure (now : Int) (pr : ViewParams) (products : List Product) :
    (pipelineWithArrayState now pr products).1 = products ∧
    (pipelineWithArrayState now pr products).2.filteredAndSorted.Perm
      (products.filter (passesFilter now pr)) ∧
    (products.filter (passesFilter now pr)).Sublist products :=
  ⟨rfl, List.mergeSort_perm _ _, List.filter_sublist _⟩

/-! ### C8: sort stability -/

theorem sortLe_trans (now : Int) (key : SortKey) (a b c : Product)
    (hab : sortLe now key a b = true) (hbc : sortLe now key b c = true) :
    sortLe now key a c = true := by
  cases key <;> simp only [sortLe, decide_eq_true_eq] at hab hbc ⊢
  · exact le_trans hab hbc
  · exact le_trans hab hbc
  · exact le_trans hbc hab
  · exact le_trans hbc hab

theorem sortLe_total (now : Int) (key : SortKey) (a b : Product) :
    sortLe now key a b || sortLe now key b a := by
  cases key <;> simp only [sortLe, Bool.or_eq_true, decide_eq_true_eq]
  · exact le_total _ _
  · exact le_total _ _
  · exact le_total _ _
  · exact le_total _ _

/-- C8: the sort is stable for every key — a pair already in comparator
order in the filtered input keeps its relative order in the output; in
particular, under `price-low` two products with identical effective price
retain their relative order from the filtered input. -/
theorem sort_stable (now : Int) (pr : ViewParams) (products : List Product)
    (a b : Product)
    (hpair : [a, b].Sublist (products.filter (passesFilter now pr))) :
    (sortLe now pr.sortBy a b = true →
      [a, b].Sublist (productPipeline now pr products).filteredAndSorted) ∧
    (pr.sortBy = SortKey.priceLow → getPrice now a = getPrice now b →
      [a, b].Sublist (productPipeline now pr products).filteredAndSorted) := by
  have hout : (productPipeline now pr products).filteredAndSorted =
      (products.filter (passesFilter now pr)).mergeSort (sortLe now pr.sortBy) := rfl
  constructor
  · intro hle
    rw [hout]
    exact List.pair_sublist_mergeSort (sortLe_trans now pr.sortBy)
      (sortLe_total now pr.sortBy) hle hpair
  · intro hkey heq
    have hle : sortLe now pr.sortBy a b = true := by
      rw [hkey]
      simp [sortLe, heq]
    rw [hout]
    exact List.pair_sublist_mergeSort (sortLe_trans now pr.sortBy)
      (sortLe_total now pr.sortBy) hle hpair

/-- Witness for C8: two variantless products (equal effective price 0)
keep their order under `price-low` on the two-element list. -/
theorem sort_stable_witness :
    [Product.mk (some "a") none [] [], Product.mk (some "b") none [] []].Sublist
      (productPipeline 0 (ViewParams.mk SortKey.priceLow [] [] "" (0, 0) 1)
        [Product.mk (some "a") none [] [],
         Product.mk (some "b") none [] []]).filteredAndSorted :=
  (sort_stable 0 (ViewParams.mk SortKey.priceLow [] [] "" (0, 0) 1)
    [Product.mk (some "a") none [] [], Product.mk (some "b") none [] []]
    (Product.mk (some "a") none [] []) (Product.mk (some "b") none [] [])
    (by
      have hfilt : [Product.mk (some "a") none [] [],
          Product.mk (some "b") none [] []].filter
          (passesFilter 0 (ViewParams.mk SortKey.priceLow [] [] "" (0, 0) 1)) =
          [Product.mk (some "a") none [] [], Product.mk (some "b") none [] []] := rfl
      rw [hfilt])).2 rfl rfl

/-! ### C2: filter soundness -/

theorem startsWithL_exists : ∀ hay q : List Char,
    startsWithL hay q = true → ∃ t, hay = q ++ t
  | hay, [], _ => ⟨hay, rfl⟩
  | [], _ :: _, h => by simp [startsWithL] at h
  | c :: hs, q :: qs, h => by
    rw [startsWithL, Bool.and_eq_true] at h
    obtain ⟨t, ht⟩ := startsWithL_exists hs qs h.2
    have hc : c = q := by simpa using h.1
    exact ⟨t, by simp [hc, ht]⟩

theorem containsL_exists : ∀ hay q : List Char,
    containsL hay q = true → ∃ s t, hay = s ++ q ++ t
  | [], q, h => by
    rw [containsL] at h
    obtain ⟨t, ht⟩ := startsWithL_exists [] q h
    exact ⟨[], t, by simpa using ht⟩
  | c :: hs, q, h => by
    rw [containsL, Bool.or_eq_true] at h
    rcases h with h | h
    · obtain ⟨t, ht⟩ := startsWithL_exists (c :: hs) q h
      exact ⟨[], t, by simpa using ht⟩
    · obtain ⟨s, t, hst⟩ := containsL_exists hs q h
      exact ⟨c :: s, t, by simp [hst]⟩

theorem dropWhile_rev_decomp (d : List Char) :
    d = ((d.reverse.dropWhile isJsWhitespace).reverse) ++
      ((d.reverse.takeWhile isJsWhitespace).reverse) := by
  conv_lhs =>
    rw [← List.reverse_reverse d,
      ← List.takeWhile_append_dropWhile (p := isJsWhitespace) (l := d.reverse)]
  rw [List.reverse_append]

/-- The trimmed form of a character list sits inside it. -/
theorem trim_middle (l : List Char) : ∃ s t, l = s ++ trimChars l ++ t := by
  refine ⟨l.takeWhile isJsWhitespace,
    ((l.dropWhile isJsWhitespace).reverse.takeWhile isJsWhitespace).reverse, ?_⟩
  conv_lhs =>
    rw [← List.takeWhile_append_dropWhile (p := isJsWhitespace) (l := l)]
  rw [List.append_assoc]
  congr 1
  exact dropWhile_rev_decomp (l.dropWhile isJsWhitespace)

/-- C2: the filtered output never exceeds the input in length, and every
product in it satisfies all four filter clauses — effective price within
the inclusive range; if the search text is non-empty, the trimmed
lowercased query occurs as a substring of the haystack; if category ids
are selected, some product tag id is selected; if sizes are selected,
some variant size value is selected. -/
theorem filter_soundness (now : Int) (pr : ViewParams) (products : List Product) :
    (productPipeline now pr products).filteredAndSorted.length ≤ products.length ∧
    ∀ p ∈ (productPipeline now pr products).filteredAndSorted,
      (pr.priceRange.1 ≤ effectivePriceFilter now p ∧
        effectivePriceFilter now p ≤ pr.priceRange.2) ∧
      (pr.searchQuery ≠ "" →
        ∃ s t, (searchHaystack p).data =
          s ++ (jsToLower (trimStr pr.searchQuery)).data ++ t) ∧
      (pr.selectedCats ≠ [] →
        ∃ tag ∈ p.category_group, tag._id ∈ pr.selectedCats) ∧
      (pr.selectedSizes ≠ [] →
        ∃ v ∈ p.variantsId, ∃ sz ∈ v.variants_values, sz ∈ pr.selectedSizes) := by
  have hout : (productPipeline now pr products).filteredAndSorted =
      (products.filter (passesFilter now pr)).mergeSort (sortLe now pr.sortBy) := rfl
  constructor
  · rw [hout, List.length_mergeSort]
    exact List.length_filter_le _ _
  · intro p hp
    rw [hout, List.mem_mergeSort] at hp
    have hpass : passesFilter now pr p = true := List.of_mem_filter hp
    rw [passesFilter] at hpass
    split_ifs at hpass with hA hB hC hD
    push_neg at hA hB hC hD
    refine ⟨⟨by omega, by omega⟩, ?_, ?_, ?_⟩
    · intro _
      by_cases htr : trimStr pr.searchQuery = String.mk []
      · have hnil : (jsToLower (trimStr pr.searchQuery)).data = [] := by
          rw [htr]
          rfl
        exact ⟨[], (searchHaystack p).data, by rw [hnil]; rfl⟩
      · have hcont : containsL (searchHaystack p).data
            (jsToLower pr.searchQuery).data = true := by
          have := hB htr
          simpa using this
        obtain ⟨s, t, hst⟩ := containsL_exists _ _ hcont
        obtain ⟨u, v, huv⟩ := trim_middle pr.searchQuery.data
        have hdecomp : (jsToLower pr.searchQuery).data =
            u.map Char.toLower ++ (jsToLower (trimStr pr.searchQuery)).data ++
              v.map Char.toLower := by
          show pr.searchQuery.data.map Char.toLower = _
          conv_lhs => rw [huv]
          rw [List.map_append, List.map_append]
          rfl
        refine ⟨s ++ u.map Char.toLower, v.map Char.toLower ++ t, ?_⟩
        rw [hst, hdecomp]
        simp [List.append_assoc]
    · intro hc
      have hany : (p.category_group.map (fun c => c._id)).any
          (fun i => pr.selectedCats.contains i) = true := by
        have := hC hc
        simpa using this
      rw [List.any_eq_true] at hany
      obtain ⟨i, hi, hmem⟩ := hany
      rw [List.mem_map] at hi
      obtain ⟨tag, htag, rfl⟩ := hi
      exact ⟨tag, htag, by simpa using hmem⟩
    · intro hs
      have hany : (p.variantsId.flatMap (fun v => v.variants_values)).any
          (fun s => pr.selectedSizes.contains s) = true := by
        have := hD hs
        simpa using this
      rw [List.any_eq_true] at hany
      obtain ⟨sz, hsz, hmem⟩ := hany
      rw [List.mem_flatMap] at hsz
      obtain ⟨v, hv, hszv⟩ := hsz
      exact ⟨v, hv, sz, hszv, by simpa using hmem⟩

/-- Witness for C2: the variantless product passes the trivial filters
and its effective price 0 lies in the range `[0, 0]`. -/
theorem filter_soundness_witness :
    (0 : Int) ≤ effectivePriceFilter 0 (Product.mk none none [] []) ∧
    effectivePriceFilter 0 (Product.mk none none [] []) ≤ 0 :=
  ((filter_soundness 0 (ViewParams.mk SortKey.newest [] [] "" (0, 0) 1)
    [Product.mk none none [] []]).2 (Product.mk none none [] [])
    (by
      have hout : (productPipeline 0 (ViewParams.mk SortKey.newest [] [] "" (0, 0) 1)
          [Product.mk none none [] []]).filteredAndSorted =
          ([Product.mk none none [] []].filter
            (passesFilter 0 (ViewParams.mk SortKey.newest [] [] "" (0, 0) 1))).mergeSort
            (sortLe 0 SortKey.newest) := rfl
      rw [hout, List.mem_mergeSort]
      decide)).1

end DressExpress
